import Mathlib

/-!
Verification of the flowpath packet-dataplane core against its C++ source.

The development shallowly embeds the packet-processing core of the
"freeflow" repository: the packet buffer pool (`src/fp-lite/buffer.hpp`),
the locked queue (second unit in `buffer.hpp`), and the external runtime
system calls (`src/unnamed/part_001`): key gather, table creation, and the
dataplane/module registries.  Machine bytes are modelled as `Nat` values
that are only ever copied, never computed with; the C++ `std::priority_queue`
min-heap is modelled by its abstract state, a list kept in ascending order
whose head is the top element.
-/

namespace Freeflow

/-- A raw packet byte; bytes are opaque in the core, so `Nat` suffices. -/
abbrev Byte := Nat

/-! ## Buffer pool (`src/fp-lite/buffer.hpp`)

`struct Buffer` holds a pool index `id_`, a 2048-byte packet store
`data_` and a packet context `cxt_`.  The byte store is allocated
uninitialized (`new Byte[2048]`) and the context lives outside this
translation unit, so the model keeps only the pool index, which is the
sole observable the pool operations touch. -/
structure Buffer where
  id : Nat
deriving Repr, DecidableEq

/-- One `heap_.push` on the `std::priority_queue<int, vector<int>, greater<int>>`
min-heap: at the abstract level, an ordered insert into the ascending list of
free indices. -/
def heapPush (h : List Nat) (x : Nat) : List Nat :=
  match h with
  | [] => [x]
  | y :: t => if x ≤ y then x :: y :: t else y :: heapPush t x

/-- `class Pool`: the buffer store `data_` and the free-list min-heap `heap_`.
The mutex only serializes access and is not part of the sequential state. -/
structure Pool where
  data : List Buffer
  free : List Nat
deriving Repr, DecidableEq

/-- `Pool::Pool(int size, Dataplane* dp)`: for `i = 0 .. size-1`, push `i`
onto the heap and append `Buffer(i, dp)` to the store. -/
def poolInit (size : Nat) : Pool :=
  (List.range size).foldl
    (fun p i => { data := p.data ++ [Buffer.mk i], free := heapPush p.free i })
    { data := [], free := [] }

/-- `Pool::alloc()`: reads `heap_.top()`, pops it, and returns `data_[id]`.
The result is the chosen index `id` together with the new pool state; the
reference the C++ returns is `data_[id]`.  On an empty heap, `top()`/`pop()`
are undefined behavior on `std::priority_queue` (the busy-wait
`while (heap_.empty()) { }` is commented out), so the model yields `none`:
no buffer is produced. -/
def Pool.alloc (p : Pool) : Option (Nat × Pool) :=
  match p.free with
  | [] => none
  | id :: rest => some (id, { p with free := rest })

/-- `Pool::dealloc(int id)`: pushes `id` back onto the min-heap. -/
def Pool.dealloc (p : Pool) (id : Nat) : Pool :=
  { p with free := heapPush p.free id }

/-! ## Pool operation sequences

For the pool invariant the allocated side is tracked as a ghost list of
indices handed out and not yet returned; the C++ keeps only the free heap
and relies on the caller to hold allocated indices. -/

/-- One external pool operation: `alloc()` or `dealloc(id)`. -/
inductive PoolOp where
  | alloc : PoolOp
  | dealloc : Nat → PoolOp
deriving Repr, DecidableEq

/-- One step of a pool-facing client: `alloc` requires a non-empty free set
and moves the returned index to the allocated side; `dealloc id` requires
`id` to be currently allocated (deallocating an already-free index is a
programmer error) and moves it back. -/
def poolStep (s : Pool × List Nat) (op : PoolOp) : Option (Pool × List Nat) :=
  match op with
  | .alloc =>
    match Pool.alloc s.1 with
    | none => none
    | some (a, p') => some (p', a :: s.2)
  | .dealloc id =>
    if id ∈ s.2 then some (Pool.dealloc s.1 id, s.2.erase id) else none

/-- Run a sequence of pool operations; `none` as soon as one is invalid. -/
def poolRun (s : Pool × List Nat) : List PoolOp → Option (Pool × List Nat)
  | [] => some s
  | op :: ops =>
    match poolStep s op with
    | none => none
    | some s' => poolRun s' ops

/-- The pool invariant for capacity `N`: both sides are duplicate-free,
no index is on both sides, and together they cover exactly `0 .. N-1`. -/
def PoolInv (N : Nat) (s : Pool × List Nat) : Prop :=
  s.1.free.Nodup ∧ s.2.Nodup ∧
  (∀ i, ¬(i ∈ s.1.free ∧ i ∈ s.2)) ∧
  (∀ i, (i ∈ s.1.free ∨ i ∈ s.2) ↔ i < N)

/-! ## Runtime system calls (`src/unnamed/part_001`) -/

/-- A field binding in the context: absolute byte offset and length
(`fp::Binding`). -/
structure Binding where
  offset : Nat
  length : Nat
deriving Repr, DecidableEq

/-- Modelled from the spec: the per-packet `Context` as the gather path sees
it (`context.hpp` is not among the provided sources).  `field_bindings` is
the field id → `(absolute_offset, length)` map — `get_field_binding` fails
with `UnboundField` on an unknown id, modelled as `none` — and `bytes` is
packet memory, which `get_field(offset)` exposes from `offset` on. -/
structure Context where
  field_bindings : Nat → Option Binding
  bytes : Nat → Byte

/-- `Context::get_field_binding(id)` (modelled from the spec, see `Context`). -/
def Context.get_field_binding (c : Context) (f : Nat) : Option Binding :=
  c.field_bindings f

/-- `Context::get_field(offset)` (modelled from the spec, see `Context`):
the packet memory viewed from `offset`. -/
def Context.get_field (c : Context) (off : Nat) : Nat → Byte :=
  fun k => c.bytes (off + k)

/-- `fp::key_size`, the fixed 128-byte size of the gather scratch buffer
(`fp::Byte buf[fp::key_size]`; spec `MAX_KEY = 128`). -/
def key_size : Nat := 128

/-- `std::copy(p, p + len, &buf[j])`: write `len` bytes of `src` into the
scratch buffer at offset `j`. -/
def copyBytes (src : Nat → Byte) (len : Nat) (buf : Nat → Byte) (j : Nat) :
    Nat → Byte :=
  fun k => if j ≤ k ∧ k < j + len then src (k - j) else buf k

/-- The `while (i < n)` loop of `fp_gather`, with explicit fuel.  Faithful to
the source: the loop body pulls the next variadic field id, looks up its
binding, copies `b.length` bytes of the field into `buf[j..]` and advances
`j` — but it never increments `i`, exactly as in the source.  `none` models
the loop not having produced a buffer: fuel exhausted (the loop is still
running), `va_arg` past the supplied arguments (undefined behavior), an
unbound field (fatal per the spec), or a copy past `buf[key_size]`
(undefined behavior). -/
def fp_gather_loop (cxt : Context) (n : Nat) :
    Nat → List Nat → (Nat → Byte) → Nat → Nat → Option (Nat → Byte)
  | 0, _, _, _, _ => none
  | fuel + 1, args, buf, i, j =>
    if i < n then
      match args with
      | [] => none
      | f :: rest =>
        match cxt.get_field_binding f with
        | none => none
        | some b =>
          if j + b.length ≤ key_size then
            fp_gather_loop cxt n fuel rest
              (copyBytes (cxt.get_field b.offset) b.length buf j)
              i (j + b.length)
          else none
    else some buf

/-- `fp_gather(cxt, key_width, n, args)`: run the copy loop starting from
`i = 0`, `j = 0` over the uninitialized stack buffer `buf0`, then build
`fp::Key(buf, key_width)` — the first `key_width` bytes of the scratch
buffer (the `Key` constructor is modelled from the spec: a key is exactly
`key_width` bytes). -/
def fp_gather (cxt : Context) (key_width n : Nat) (args : List Nat)
    (buf0 : Nat → Byte) (fuel : Nat) : Option (List Byte) :=
  (fp_gather_loop cxt n fuel args buf0 0 0).map
    (fun buf => (List.range key_width).map buf)

/-- `fp::Table::Type`.  `OTHER` stands for an out-of-range enumeration value
reaching the `default:` label of `fp_create_table` through the C interface. -/
inductive TableType where
  | EXACT : TableType
  | PREFIX : TableType
  | WILDCARD : TableType
  | OTHER : TableType
deriving Repr, DecidableEq

/-- `fp::Hash_table(id, size, key_width)` as registered by `fp_create_table`;
only its identity and construction parameters matter to the claims here. -/
structure Table where
  id : Nat
  size : Nat
  key_width : Nat
deriving Repr, DecidableEq

/-- `fp::Dataplane(name, app)`: its name, the application path, and the
table list that `fp_create_table` appends to. -/
structure Dataplane where
  name : String
  app : String
  tables : List Table
deriving Repr, DecidableEq

/-- `fp_create_table(dp, id, size, key_width, type)`.  `EXACT` builds a hash
table, appends it to `dp->tables()` and returns it; the `PREFIX` and
`WILDCARD` cases only `break`, leaving `tbl = nullptr` (`none`) and the
dataplane untouched; any other value throws `"Unknown table type given"`. -/
def fp_create_table (dp : Dataplane) (id size key_width : Nat)
    (type : TableType) : Except String (Option Table × Dataplane) :=
  match type with
  | .EXACT =>
    let tbl : Table := { id := id, size := size, key_width := key_width }
    .ok (some tbl, { dp with tables := dp.tables ++ [tbl] })
  | .PREFIX => .ok (none, dp)
  | .WILDCARD => .ok (none, dp)
  | .OTHER => .error "Unknown table type given"

/-- `create_dataplane(name, app)` over the global `dataplane_table`,
modelled as an association list.  If the name is already present, throw
`"Data plane name already exists"`; otherwise insert
`new Dataplane(name, app)` under the name and return
`dataplane_table.at(name)`. -/
def create_dataplane (name app : String)
    (dataplane_table : List (String × Dataplane)) :
    Except String (Dataplane × List (String × Dataplane)) :=
  if (dataplane_table.lookup name).isSome then
    .error "Data plane name already exists"
  else
    let tbl' := (name, Dataplane.mk name app []) :: dataplane_table
    match tbl'.lookup name with
    | some dp => .ok (dp, tbl')
    | none => .error "at: key not found"

/-- `unload_application(path)` over the global `module_table`, modelled as
the list of loaded paths.  The source throws when `find(path)` SUCCEEDS —
`if (app != module_table.end()) throw …` — with the message saying the
application "is not loaded"; otherwise it erases the `end()` iterator,
which leaves the table without that (absent) entry. -/
def unload_application (path : String) (module_table : List String) :
    Except String (List String) :=
  if path ∈ module_table then
    .error ("Application at '" ++ path ++ "' is not loaded.")
  else
    .ok (module_table.erase path)

/-! ## Locked queue (`Locked_queue`, second unit of `buffer.hpp`) -/

/-- `fp::Locked_queue<T>`: the underlying `std::queue`; the shared mutex only
serializes access. -/
structure Locked_queue (T : Type) where
  queue : List T

/-- `int Locked_queue::size()`. -/
def Locked_queue.size {T : Type} (q : Locked_queue T) : Nat :=
  q.queue.length

/-- `bool Locked_queue::empty() { return size(); }` — the `int` return value
of `size()` converted to `bool`, i.e. true exactly when `size() != 0`. -/
def Locked_queue.empty {T : Type} (q : Locked_queue T) : Bool :=
  q.size != 0

/-- `void Locked_queue::enqueue(T& v)`. -/
def Locked_queue.enqueue {T : Type} (q : Locked_queue T) (v : T) :
    Locked_queue T :=
  ⟨q.queue ++ [v]⟩

/-- `bool Locked_queue::dequeue(T& v)`: pops the front into `v` when
`queue_.size()` is non-zero, reporting whether anything was popped. -/
def Locked_queue.dequeue {T : Type} (q : Locked_queue T) :
    Option (T × Locked_queue T) :=
  match q.queue with
  | [] => none
  | v :: rest => some (v, ⟨rest⟩)

/-! ## Concrete instances used to evaluate the model -/

/-- A context with a single field binding: field id 10 is bound at absolute
offset 0 with length 4, over an all-zero packet. -/
def cxt0 : Context :=
  { field_bindings := fun f => if f = 10 then some { offset := 0, length := 4 } else none,
    bytes := fun _ => 0 }

/-- A context with no field bindings over an all-zero packet. -/
def cxt1 : Context :=
  { field_bindings := fun _ => none, bytes := fun _ => 0 }

/-- A dataplane with no tables. -/
def dp0 : Dataplane := { name := "dp0", app := "app", tables := [] }

/-! ### Heap lemmas -/

theorem heapPush_mem (h : List Nat) (x y : Nat) :
    y ∈ heapPush h x ↔ y = x ∨ y ∈ h := by
  induction h with
  | nil => simp [heapPush]
  | cons z t ih =>
    by_cases hxz : x ≤ z
    · simp only [heapPush, if_pos hxz, List.mem_cons]
    · simp only [heapPush, if_neg hxz, List.mem_cons, ih]
      tauto

theorem heapPush_nodup (h : List Nat) (x : Nat)
    (hn : h.Nodup) (hx : x ∉ h) : (heapPush h x).Nodup := by
  induction h with
  | nil => simp [heapPush]
  | cons z t ih =>
    rcases List.nodup_cons.mp hn with ⟨hz, ht⟩
    by_cases hxz : x ≤ z
    · have hxne : x ≠ z := fun e => hx (e ▸ List.mem_cons_self z t)
      simp [heapPush, hxz, List.nodup_cons]
      refine ⟨⟨fun e => hxne e, fun hm => hx (List.mem_cons_of_mem z hm)⟩, hz, ht⟩
    · have hx' : x ∉ t := fun hm => hx (List.mem_cons_of_mem z hm)
      simp only [heapPush, if_neg hxz]
      refine List.nodup_cons.mpr ⟨?_, ih ht hx'⟩
      intro hm
      rcases (heapPush_mem t x z).mp hm with e | hm'
      · exact hxz (le_of_eq e.symm)
      · exact hz hm'

theorem heapPush_sorted (h : List Nat) (x : Nat)
    (hs : h.Sorted (· ≤ ·)) : (heapPush h x).Sorted (· ≤ ·) := by
  induction h with
  | nil => simp [heapPush]
  | cons z t ih =>
    rcases List.sorted_cons.mp hs with ⟨hz, ht⟩
    by_cases hxz : x ≤ z
    · simp only [heapPush, if_pos hxz]
      exact List.sorted_cons.mpr ⟨by
        intro b hb
        rcases List.mem_cons.mp hb with e | hm
        · exact e ▸ hxz
        · exact le_trans hxz (hz b hm), hs⟩
    · simp only [heapPush, if_neg hxz]
      refine List.sorted_cons.mpr ⟨?_, ih ht⟩
      intro b hb
      rcases (heapPush_mem t x b).mp hb with e | hm
      · exact e ▸ le_of_not_le hxz
      · exact hz b hm

theorem heapPush_of_forall_lt (h : List Nat) (x : Nat)
    (H : ∀ y ∈ h, y < x) : heapPush h x = h ++ [x] := by
  induction h with
  | nil => rfl
  | cons z t ih =>
    have hz : z < x := H z (List.mem_cons_self z t)
    have : ¬ x ≤ z := not_le.mpr hz
    simp only [heapPush, if_neg this, List.cons_append]
    rw [ih (fun y hy => H y (List.mem_cons_of_mem z hy))]

/-- The constructor builds exactly the store `[Buffer 0, …, Buffer (N-1)]`
and the free heap `[0, …, N-1]`. -/
theorem poolInit_eq (N : Nat) :
    poolInit N = { data := (List.range N).map Buffer.mk, free := List.range N } := by
  induction N with
  | zero => rfl
  | succ n ih =>
    have hstep :
        poolInit (n + 1)
          = { data := (poolInit n).data ++ [Buffer.mk n],
              free := heapPush (poolInit n).free n } := by
      simp only [poolInit, List.range_succ, List.foldl_append, List.foldl_cons,
        List.foldl_nil]
    rw [hstep, ih]
    have hlt : ∀ y ∈ List.range n, y < n := fun y hy => List.mem_range.mp hy
    simp only [heapPush_of_forall_lt _ _ hlt, List.range_succ, List.map_append,
      List.map_cons, List.map_nil]


/-! ### Gather loop lemmas -/

/-- The `while (i < n)` loop of `fp_gather` never exits once entered: the
loop index `i` is never incremented, so whenever `i < n` holds on entry the
loop never reaches the exit branch, whatever the fuel. -/
theorem fp_gather_loop_stuck (cxt : Context) (n : Nat) (hn : 0 < n) :
    ∀ (fuel : Nat) (args : List Nat) (buf : Nat → Byte) (j : Nat),
      fp_gather_loop cxt n fuel args buf 0 j = none := by
  intro fuel
  induction fuel with
  | zero => intro args buf j; rfl
  | succ f ih =>
    intro args buf j
    cases args with
    | nil => simp [fp_gather_loop, if_pos hn]
    | cons a rest =>
      cases hb : cxt.get_field_binding a with
      | none => simp [fp_gather_loop, if_pos hn, hb]
      | some b =>
        by_cases hj : j + b.length ≤ key_size
        · simp [fp_gather_loop, if_pos hn, hb, hj, ih]
        · simp [fp_gather_loop, if_pos hn, hb, hj]

/-! ## Claims -/

/-- C1: the claim says that for field-id lists whose bound lengths sum to
`key_width`, `fp_gather` terminates and returns the `key_width`-byte
concatenation of the fields.  The source's copy loop never increments its
loop counter `i`, so for every `n ≥ 1` — regardless of the context, the
arguments, their bound lengths, or the fuel allowed — the gather never
produces a key. -/
theorem fp_gather_never_returns (cxt : Context) (key_width n : Nat)
    (args : List Nat) (buf0 : Nat → Byte) (fuel : Nat) (hn : 0 < n) :
    fp_gather cxt key_width n args buf0 fuel = none := by
  unfold fp_gather
  rw [fp_gather_loop_stuck cxt n hn fuel args buf0 0]
  rfl

/-- C1 witness: a concrete well-formed gather call — one field id, bound to
4 bytes, with `key_width = 4` — yields no key. -/
theorem fp_gather_never_returns_witness :
    fp_gather cxt0 4 1 [10] (fun _ => 0) 100 = none :=
  fp_gather_never_returns cxt0 4 1 [10] (fun _ => 0) 100 (by decide)

/-- C2 counterexample: a gather call whose summed field lengths (0, from an
empty field list) differ from `key_width = 4` does not fail — it returns a
4-byte key copied from the scratch buffer. -/
theorem fp_gather_width_mismatch_returns_key :
    fp_gather cxt1 4 0 [] (fun _ => 0) 1 = some [0, 0, 0, 0] := by
  decide

/-- C2 amended: `fp_gather` performs no key-width check.  With `n = 0` —
summed field lengths 0, differing from any non-zero `key_width` — it
returns a key of exactly `key_width` bytes read from the uninitialized
scratch buffer instead of failing; no `KeyWidthMismatch` error exists in
the source. -/
theorem fp_gather_no_width_check (cxt : Context) (key_width : Nat)
    (buf0 : Nat → Byte) (fuel : Nat) (_hkw : key_width ≤ key_size)
    (hfuel : 0 < fuel) :
    fp_gather cxt key_width 0 [] buf0 fuel
      = some ((List.range key_width).map buf0) := by
  cases fuel with
  | zero => cases hfuel
  | succ f => rfl

/-- C2 witness: the amended statement evaluated at `key_width = 4`. -/
theorem fp_gather_no_width_check_witness :
    fp_gather cxt1 4 0 [] (fun _ => 0) 1
      = some ((List.range 4).map (fun _ => 0)) :=
  fp_gather_no_width_check cxt1 4 (fun _ => 0) 1 (by decide) (by decide)

/-- C3: the claim says that on an empty free set `alloc` fails with a
`PoolExhausted` error surfaced to the caller.  The source instead calls
`heap_.top()` and `heap_.pop()` on the empty heap (undefined behavior; the
busy-wait guard is commented out) and defines no `PoolExhausted` error at
all: evaluated on a pool of two buffers whose free set is empty — pool size
2 after two allocations, as in scenario S5 — the model produces no buffer
and no surfaced error value exists to return. -/
theorem pool_alloc_empty_free :
    Pool.alloc { data := [Buffer.mk 0, Buffer.mk 1], free := [] } = none := rfl

/-- C4: on a non-empty free set (in a reachable state the heap list is
sorted), `alloc` removes and returns the minimum free index, leaving the
store untouched; and after `dealloc 0` on a pool whose free set was empty,
the next `alloc` returns index 0. -/
theorem pool_alloc_returns_min (p : Pool) (hs : p.free.Sorted (· ≤ ·))
    (hne : p.free ≠ []) :
    (∃ a p', Pool.alloc p = some (a, p') ∧ p.free = a :: p'.free ∧
      p'.data = p.data ∧ ∀ x ∈ p.free, a ≤ x) ∧
    (∀ q : Pool, q.free = [] →
      Pool.alloc (Pool.dealloc q 0) = some (0, { q with free := [] })) := by
  constructor
  · cases hf : p.free with
    | nil => exact absurd hf hne
    | cons a rest =>
      refine ⟨a, { p with free := rest }, ?_, ?_, rfl, ?_⟩
      · simp [Pool.alloc, hf]
      · simp [hf]
      · intro x hx
        have hs' : (a :: rest).Sorted (· ≤ ·) := by rw [hf] at hs; exact hs
        rcases List.mem_cons.mp hx with e | hm
        · exact le_of_eq e.symm
        · exact (List.sorted_cons.mp hs').1 x hm
  · intro q hq
    simp [Pool.dealloc, hq, heapPush, Pool.alloc]

/-- C4 witness: deallocating index 0 into an empty pool and allocating
again yields buffer index 0. -/
theorem pool_alloc_returns_min_witness :
    Pool.alloc (Pool.dealloc { data := [], free := [] } 0)
      = some (0, { data := [], free := [] }) :=
  (pool_alloc_returns_min { data := [], free := [0, 1] } (by decide)
    (by decide)).2 { data := [], free := [] } rfl

/-- C10: constructing a pool of size `N` fills the store with buffers whose
id equals their position, makes the free heap exactly `0 .. N-1`, and
neither `alloc` nor `dealloc` ever adds to or removes from the store. -/
theorem poolInit_spec (N : Nat) :
    (poolInit N).data = (List.range N).map Buffer.mk ∧
    (poolInit N).free = List.range N ∧
    (∀ i, i < N → (poolInit N).data.get? i = some (Buffer.mk i)) ∧
    (∀ p a p', Pool.alloc p = some (a, p') → p'.data = p.data) ∧
    (∀ p id, (Pool.dealloc p id).data = p.data) := by
  have h := poolInit_eq N
  refine ⟨by rw [h], by rw [h], ?_, ?_, ?_⟩
  · intro i hi
    rw [h]
    simp [List.get?_eq_getElem?, List.getElem?_map, List.getElem?_range hi]
  · intro p a p' hap
    cases hf : p.free with
    | nil => simp [Pool.alloc, hf] at hap
    | cons b rest =>
      simp [Pool.alloc, hf] at hap
      rw [← hap.2]
  · intro p id
    rfl

/-- C10 witness: in a pool of size 2, the buffer at position 0 has id 0. -/
theorem poolInit_spec_witness :
    (poolInit 2).data.get? 0 = some (Buffer.mk 0) :=
  (poolInit_spec 2).2.2.1 0 (by decide)

/-! ### Pool invariant preservation (C5) -/

theorem poolInv_step {N : Nat} {s s' : Pool × List Nat} {op : PoolOp}
    (hinv : PoolInv N s) (hstep : poolStep s op = some s') : PoolInv N s' := by
  obtain ⟨hfn, han, hdisj, hcov⟩ := hinv
  cases op with
  | alloc =>
    cases hf : s.1.free with
    | nil => simp [poolStep, Pool.alloc, hf] at hstep
    | cons a rest =>
      simp only [poolStep, Pool.alloc, hf] at hstep
      obtain rfl := Option.some.inj hstep
      rw [hf] at hfn hdisj hcov
      rcases List.nodup_cons.mp hfn with ⟨har, hrn⟩
      have hana : a ∉ s.2 := fun hm => hdisj a ⟨List.mem_cons_self a rest, hm⟩
      refine ⟨hrn, List.nodup_cons.mpr ⟨hana, han⟩, ?_, ?_⟩
      · intro i ⟨hif, hia⟩
        rcases List.mem_cons.mp hia with e | hm
        · exact har (e ▸ hif)
        · exact hdisj i ⟨List.mem_cons_of_mem a hif, hm⟩
      · intro i
        rw [← hcov i]
        simp only [List.mem_cons]
        tauto
  | dealloc id =>
    by_cases hid : id ∈ s.2
    · simp only [poolStep, if_pos hid] at hstep
      obtain rfl := Option.some.inj hstep
      have hidf : id ∉ s.1.free := fun hm => hdisj id ⟨hm, hid⟩
      refine ⟨heapPush_nodup _ _ hfn hidf, han.erase id, ?_, ?_⟩
      · intro i ⟨hif, hia⟩
        rcases (heapPush_mem s.1.free id i).mp hif with e | hm
        · exact (han.not_mem_erase) (e ▸ hia)
        · exact hdisj i ⟨hm, List.mem_of_mem_erase hia⟩
      · intro i
        rw [← hcov i]
        constructor
        · intro hcase
          rcases hcase with hif | hia
          · rcases (heapPush_mem s.1.free id i).mp hif with e | hm
            · exact e ▸ Or.inr hid
            · exact Or.inl hm
          · exact Or.inr (List.mem_of_mem_erase hia)
        · intro hcase
          rcases hcase with hif | hia
          · exact Or.inl ((heapPush_mem s.1.free id i).mpr (Or.inr hif))
          · by_cases he : i = id
            · exact Or.inl ((heapPush_mem s.1.free id i).mpr (Or.inl he))
            · exact Or.inr ((List.mem_erase_of_ne he).mpr hia)
    · simp [poolStep, if_neg hid] at hstep

theorem poolInv_run {N : Nat} :
    ∀ (ops : List PoolOp) (s s' : Pool × List Nat),
      PoolInv N s → poolRun s ops = some s' → PoolInv N s' := by
  intro ops
  induction ops with
  | nil =>
    intro s s' hinv hrun
    simp [poolRun] at hrun
    exact hrun ▸ hinv
  | cons op rest ih =>
    intro s s' hinv hrun
    cases hstep : poolStep s op with
    | none => simp [poolRun, hstep] at hrun
    | some s1 =>
      simp only [poolRun, hstep] at hrun
      exact ih s1 s' (poolInv_step hinv hstep) hrun

theorem poolInv_init (N : Nat) : PoolInv N (poolInit N, []) := by
  rw [poolInit_eq N]
  refine ⟨List.nodup_range N, List.nodup_nil, ?_, ?_⟩
  · intro i ⟨_, hia⟩
    exact (List.not_mem_nil i) hia
  · intro i
    simp [List.mem_range]

/-- C5: after any valid sequence of pool operations — each `alloc` made
with a non-empty free set, each `dealloc` returning a currently allocated
index — every index below the capacity is in exactly one of the free heap
and the allocated set. -/
theorem pool_exactly_one (N : Nat) (ops : List PoolOp)
    (s' : Pool × List Nat)
    (h : poolRun (poolInit N, []) ops = some s') (i : Nat) (hi : i < N) :
    (i ∈ s'.1.free ∧ i ∉ s'.2) ∨ (i ∉ s'.1.free ∧ i ∈ s'.2) := by
  obtain ⟨_, _, hdisj, hcov⟩ := poolInv_run ops (poolInit N, []) s'
    (poolInv_init N) h
  rcases (hcov i).mpr hi with hif | hia
  · exact Or.inl ⟨hif, fun hia => hdisj i ⟨hif, hia⟩⟩
  · exact Or.inr ⟨fun hif => hdisj i ⟨hif, hia⟩, hia⟩

/-- C5 witness: pool of size 1 after one allocation — index 0 is in the
allocated set and no longer in the free heap. -/
theorem pool_exactly_one_witness :
    (0 ∈ ([] : List Nat) ∧ 0 ∉ ([0] : List Nat)) ∨
    (0 ∉ ([] : List Nat) ∧ 0 ∈ ([0] : List Nat)) :=
  pool_exactly_one 1 [PoolOp.alloc] ({ data := [Buffer.mk 0], free := [] }, [0])
    (by decide) 0 (by decide)

/-- C6 counterexample: requesting a PREFIX table from `fp_create_table`
yields no table at all — the `PREFIX` case only breaks, so the function
returns the null table pointer and registers nothing — rather than a table
whose `find` returns the miss flow. -/
theorem fp_create_table_prefix_null :
    fp_create_table dp0 1 1024 4 TableType.PREFIX = .ok (none, dp0) := rfl

/-- C6 amended: for the PREFIX and WILDCARD table types, `fp_create_table`
returns a null table (`none`) and leaves the dataplane's table list
untouched; no table — total-miss or otherwise — is constructed. -/
theorem fp_create_table_prefix_wildcard (dp : Dataplane)
    (id size key_width : Nat) :
    fp_create_table dp id size key_width TableType.PREFIX = .ok (none, dp) ∧
    fp_create_table dp id size key_width TableType.WILDCARD = .ok (none, dp) :=
  ⟨rfl, rfl⟩

/-- C7: `unload_application(path)` throws exactly when the application at
`path` is present in the module table, and the thrown message is the
"is not loaded" message; when the path is absent it does not throw. -/
theorem unload_application_throws_iff (path : String)
    (module_table : List String) :
    ((∃ e, unload_application path module_table = .error e) ↔
      path ∈ module_table) ∧
    (path ∈ module_table →
      unload_application path module_table =
        .error ("Application at '" ++ path ++ "' is not loaded.")) := by
  constructor
  · constructor
    · rintro ⟨e, he⟩
      by_contra hmem
      simp [unload_application, hmem] at he
    · intro hmem
      exact ⟨"Application at '" ++ path ++ "' is not loaded.",
        by simp [unload_application, hmem]⟩
  · intro hmem
    simp [unload_application, hmem]

/-- C7 witness: unloading a loaded application throws the "is not loaded"
message. -/
theorem unload_application_throws_iff_witness :
    unload_application "a" ["a"] =
      .error ("Application at '" ++ "a" ++ "' is not loaded.") :=
  (unload_application_throws_iff "a" ["a"]).2 (by simp)

/-- C8: `Locked_queue::empty()` returns `size()` converted to `bool`: it is
true exactly when the underlying queue is non-empty — the inverse of the
usual emptiness test. -/
theorem locked_queue_empty_truthy {T : Type} (q : Locked_queue T) :
    Locked_queue.empty q = true ↔ q.queue ≠ [] := by
  simp [Locked_queue.empty, Locked_queue.size, List.length_eq_zero]

/-- C9: `create_dataplane(name, app)` throws `"Data plane name already
exists"` exactly when the registry already binds `name`; otherwise it
registers `Dataplane(name, app)` under `name`, returns it, and the registry
gains exactly that one entry. -/
theorem create_dataplane_spec (name app : String)
    (dataplane_table : List (String × Dataplane)) :
    ((∃ e, create_dataplane name app dataplane_table = .error e) ↔
      (dataplane_table.lookup name).isSome) ∧
    ((dataplane_table.lookup name).isSome →
      create_dataplane name app dataplane_table =
        .error "Data plane name already exists") ∧
    (dataplane_table.lookup name = none →
      create_dataplane name app dataplane_table =
        .ok (Dataplane.mk name app [],
          (name, Dataplane.mk name app []) :: dataplane_table)) := by
  by_cases h : (dataplane_table.lookup name).isSome
  · refine ⟨⟨fun _ => h, fun _ => ⟨"Data plane name already exists",
        by simp [create_dataplane, h]⟩⟩,
      fun _ => by simp [create_dataplane, h], fun hn => ?_⟩
    rw [hn] at h
    simp at h
  · refine ⟨⟨fun he => ?_, fun hs => absurd hs h⟩,
      fun hs => absurd hs h, fun _ => ?_⟩
    · obtain ⟨e, he⟩ := he
      simp [create_dataplane, h, List.lookup] at he
    · simp [create_dataplane, h, List.lookup]

/-- C9 witness: creating a dataplane in an empty registry succeeds and
leaves exactly the one new entry. -/
theorem create_dataplane_spec_witness :
    create_dataplane "d" "a" [] =
      .ok (Dataplane.mk "d" "a" [], [("d", Dataplane.mk "d" "a" [])]) :=
  (create_dataplane_spec "d" "a" []).2.2 rfl

end Freeflow
